import Mathlib

/-!
Shallow embedding of the sketch-parser repository: the indentation-sensitive
tokenizer (src/parser/tokenizer.rs) and the recursive-descent parsing entry
point (src/parser.rs), together with theorems checking the repository's
specification against them.

Conventions of the embedding:
- Rust `Vec<char>` indexing becomes `List Char` with `List.get?`; an
  out-of-bounds access, which panics in the source, is modelled by the whole
  function returning `none`.  Every `Option _` layer whose `none` means
  "the source panics here" is marked in the corresponding definition.
- Byte offsets and character offsets coincide on the ASCII inputs the
  notation uses, so the model works uniformly with character lists.
- Loops are either structural recursions on the scanned list or carry a fuel
  argument that dominates the number of iterations of the source loop.
-/

/-- Token type of src/parser/tokenizer.rs.  The source enum stores only the
token kind and (for textual tokens) the text; it has no line/column fields
(the line counter in `tokenize` is commented out). -/
inductive Token where
  | identifier (text : String)
  | condition (text : String)
  | indent
  | dedent
  | unknown (text : String)
  | comment (text : String)
  | action (text : String)
  | parallelState
  | finalState
  | initialState
  | transitionArrow
deriving DecidableEq, Repr

/-- `is_identifier_start` from tokenizer.rs: the regex `^[#a-zA-Z0-9_\.]`
applied to a single character. -/
def is_identifier_start (c : Char) : Bool :=
  c = '#' || ('a' ≤ c && c ≤ 'z') || ('A' ≤ c && c ≤ 'Z') ||
  ('0' ≤ c && c ≤ '9') || c = '_' || c = '.'

/-- Rust `char::is_whitespace` restricted to the ASCII range, which is all the
tokenizer dispatch can meet after the earlier match arms. -/
def is_ws (c : Char) : Bool :=
  c = ' ' || c = '\t' || c = '\n' || c = '\r' || c = '\x0b' || c = '\x0c'

/-- The maximal identifier run starting at `offset`: the first component of
`input[offset..].split(|c| is_identifier_start(c) == false)` in the source. -/
def identText (offset : Nat) (line : List Char) : List Char :=
  (line.drop offset).takeWhile is_identifier_start

/-- `identifier_token` from tokenizer.rs. -/
def identifier_token (offset : Nat) (line : List Char) : Token :=
  Token.identifier (String.mk (identText offset line))

/-- `comment_token` from tokenizer.rs: the rest of the line, `%` included. -/
def comment_token (offset : Nat) (line : List Char) : Token :=
  Token.comment (String.mk (line.drop offset))

/-- Index (relative to the head of the list) of the first character that
satisfies `is_identifier_start`; `none` when there is no such character, in
which case the source's `while !is_identifier_start(c)` scan walks past the
end of the char vector and panics. -/
def findIdent : List Char → Option Nat
  | [] => none
  | c :: rest =>
    if is_identifier_start c then some 0
    else (findIdent rest).map (fun n => n + 1)

/-- `condition_token` from tokenizer.rs.  Called with `line[offset] = ';'`
(not an identifier character), its scan loop stops at the first identifier
character at an index `j > offset`, takes the maximal identifier run there and
returns the cursor just past it.  `none` models the out-of-range panic when no
identifier character remains on the line. -/
def condition_token (offset : Nat) (line : List Char) : Option (Nat × Token) :=
  match findIdent (line.drop offset) with
  | none => none
  | some k =>
    let j := offset + k
    let text := identText j line
    some (j + text.length, Token.condition (String.mk text))

/-- `action_token` from tokenizer.rs: same scan as `condition_token`, emitting
an Action token. -/
def action_token (offset : Nat) (line : List Char) : Option (Nat × Token) :=
  match findIdent (line.drop offset) with
  | none => none
  | some k =>
    let j := offset + k
    let text := identText j line
    some (j + text.length, Token.action (String.mk text))

/-- The leading-space count of a line, i.e. the source loop
`while line[offset] == ' '`.  The loop checks `line[offset]` before comparing,
so on an empty line or a line made only of spaces it indexes past the end and
panics: that is the `none` case. -/
def countSpaces : List Char → Option Nat
  | [] => none
  | c :: rest =>
    if c = ' ' then (countSpaces rest).map (fun n => n + 1)
    else some 0

/-- The `while indent_stack.len() > 0` pop loop of `indent_dedent_tokens`:
pop entries greater than the current level, one Dedent per pop; the first
entry not greater than the level is pushed back and the loop stops.  The stack
is represented with its top at the head. -/
def popDedents : List Nat → Nat → List Nat × List Token
  | [], _ => ([], [])
  | p :: rest, lvl =>
    if p > lvl then
      let (s, ts) := popDedents rest lvl
      (s, Token.dedent :: ts)
    else (p :: rest, [])

/-- `indent_dedent_tokens` from tokenizer.rs.  Returns the new offset (the
leading-space count), the structural tokens for this line and the updated
indent stack.  Note the source wraps all stack handling in
`if current_indent_level > 0`, so a line at column zero never emits Dedents
even when the stack is non-empty.  The dedent validity check is only a
commented-out TODO in the source, so a level matching no stack entry is
accepted silently.  `none` models the panic of the leading-space loop. -/
def indent_dedent_tokens (stack : List Nat) (line : List Char) :
    Option (Nat × List Token × List Nat) :=
  match countSpaces line with
  | none => none
  | some lvl =>
    if lvl > 0 then
      match stack with
      | [] => some (lvl, [Token.indent], [lvl])
      | prev :: _ =>
        if prev < lvl then some (lvl, [Token.indent], lvl :: stack)
        else if prev > lvl then
          let (stack', dtoks) := popDedents stack lvl
          some (lvl, dtoks, stack')
        else some (lvl, [], stack)
    else some (lvl, [], stack)

/-- The per-line character-dispatch loop of `tokenize`
(`while offset < char_vec.len() { match c { ... } }`).  The fuel argument
dominates the number of iterations (each iteration advances the offset by at
least one); `tokenize` passes `line.length + 1`.  `none` propagates the panics
of `condition_token` / `action_token` (or fuel exhaustion, which the callers'
fuel makes unreachable). -/
def scanLine (line : List Char) : Nat → Nat → Option (List Token)
  | 0, _ => none
  | fuel + 1, offset =>
    match line.get? offset with
    | none => some []
    | some c =>
      if c = '%' then some [comment_token offset line]
      else if c = '&' then
        (scanLine line fuel (offset + 1)).map (fun ts => Token.parallelState :: ts)
      else if c = '$' then
        (scanLine line fuel (offset + 1)).map (fun ts => Token.finalState :: ts)
      else if c = '*' then
        (scanLine line fuel (offset + 1)).map (fun ts => Token.initialState :: ts)
      else if c = ';' then
        match condition_token offset line with
        | none => none
        | some (off2, tk) => (scanLine line fuel off2).map (fun ts => tk :: ts)
      else if c = '-' then
        if line.get? (offset + 1) = some '>' then
          (scanLine line fuel (offset + 2)).map (fun ts => Token.transitionArrow :: ts)
        else
          (scanLine line fuel (offset + 1)).map (fun ts => Token.unknown ("unknown") :: ts)
      else if c = '>' then
        match action_token offset line with
        | none => none
        | some (off2, tk) => (scanLine line fuel off2).map (fun ts => tk :: ts)
      else if is_identifier_start c then
        let text := identText offset line
        (scanLine line fuel (offset + text.length)).map
          (fun ts => Token.identifier (String.mk text) :: ts)
      else if is_ws c then scanLine line fuel (offset + 1)
      else
        (scanLine line fuel (offset + 1)).map (fun ts => Token.unknown ("unknown") :: ts)

/-- `input.split("\n")` on the character list: splitting on every newline,
keeping empty segments (so the empty input yields one empty line). -/
def splitLines : List Char → List (List Char)
  | [] => [[]]
  | c :: rest =>
    if c = '\n' then [] :: splitLines rest
    else
      match splitLines rest with
      | [] => [[c]]
      | l :: ls => (c :: l) :: ls

/-- The per-line loop of `tokenize`, threading the indent stack through the
lines; after the last line the remaining stack entries are popped, one Dedent
each. -/
def tokenizeLines : List Nat → List (List Char) → Option (List Token)
  | stack, [] => some (List.replicate stack.length Token.dedent)
  | stack, line :: rest =>
    match indent_dedent_tokens stack line with
    | none => none
    | some (offset, itoks, stack') =>
      match scanLine line (line.length + 1) offset with
      | none => none
      | some ltoks =>
        (tokenizeLines stack' rest).map (fun more => itoks ++ (ltoks ++ more))

/-- `tokenize` from tokenizer.rs.  `none` models a panic of the source. -/
def tokenize (input : String) : Option (List Token) :=
  tokenizeLines [] (splitLines input.toList)

/-- Whether a token is a Comment token; used by the filter in
`Parser::parse`. -/
def Token.isComment : Token → Bool
  | Token.comment _ => true
  | _ => false

/-!
Embedding of src/parser.rs.  The source's `Parser` struct stores the token
vector; here every method takes it as a first argument.  Each token-level
rule returns `Option (Option _)`: the outer `none` models the panic of the
unguarded `self.tokens[offset]` indexing, the inner `Option` is the source's
return value (`None` = rule did not match).  The source field access
`self.tokens[offset].typ` matches on the token kind; the embedding matches on
the token enum directly.
-/

/-- `StateType` from src/parser.rs. -/
inductive StateType where
  | atomicState
  | compoundState
  | finalState
  | parallelState
deriving DecidableEq, Repr

/-- `TransitionNode` from src/parser.rs. -/
structure TransitionNode where
  target : String
  cond : Option String
  action : Option String
deriving DecidableEq, Repr

/-- `StateNode` from src/parser.rs; the `on` and `states` HashMaps are
modelled as association lists (the source only ever constructs them empty;
the source field `on` is a reserved word here, hence `on_`). -/
inductive StateNode where
  | mk (id : String) (typ : StateType) (initial : Option String)
      (is_initial : Bool) (on_ : List (String × TransitionNode))
      (states : List (String × StateNode))

/-- `zero_or_one` from src/parser.rs. -/
def zero_or_one {T : Type} (offset : Nat)
    (f : Nat → Option (Option (Nat × T))) : Option (Nat × Option (Nat × T)) :=
  match f offset with
  | none => none
  | some (some (o, v)) => some (o, some (o, v))
  | some none => some (offset, none)

/-- The `while let Some(x) = f(new_offset)` loop of `zero_or_more`,
accumulating parsed values.  Fuel dominates the iteration count. -/
def zomLoop {T : Type} (f : Nat → Option (Option (Nat × T))) :
    Nat → Nat → List T → Option (Nat × List T)
  | 0, _, _ => none
  | fuel + 1, off, acc =>
    match f off with
    | none => none
    | some none => some (off, acc)
    | some (some (o, v)) => zomLoop f fuel o (acc ++ [v])

/-- `zero_or_more` from src/parser.rs. -/
def zero_or_more {T : Type} (fuel : Nat) (offset : Nat)
    (f : Nat → Option (Option (Nat × T))) :
    Option (Nat × Option (Nat × List T)) :=
  match zomLoop f fuel offset [] with
  | none => none
  | some (off, vals) =>
    if vals.length > 0 then some (off, some (off, vals))
    else some (offset, none)

namespace Parser

/-- `Parser::identifier`: `self.tokens[offset]` panics out of bounds (outer
`none`); otherwise the rule matches exactly an Identifier token. -/
def identifier (tokens : List Token) (offset : Nat) :
    Option (Option (Nat × String)) :=
  match tokens.get? offset with
  | none => none
  | some (Token.identifier text) => some (some (offset + 1, text))
  | some _ => some none

/-- `Parser::parallel_state`. -/
def parallel_state (tokens : List Token) (offset : Nat) :
    Option (Option (Nat × Bool)) :=
  match tokens.get? offset with
  | none => none
  | some Token.parallelState => some (some (offset + 1, true))
  | some _ => some none

/-- `Parser::final_state`. -/
def final_state (tokens : List Token) (offset : Nat) :
    Option (Option (Nat × Bool)) :=
  match tokens.get? offset with
  | none => none
  | some Token.finalState => some (some (offset + 1, true))
  | some _ => some none

/-- `Parser::initial_state`. -/
def initial_state (tokens : List Token) (offset : Nat) :
    Option (Option (Nat × Bool)) :=
  match tokens.get? offset with
  | none => none
  | some Token.initialState => some (some (offset + 1, true))
  | some _ => some none

/-- `Parser::indent`. -/
def indent (tokens : List Token) (offset : Nat) :
    Option (Option (Nat × Bool)) :=
  match tokens.get? offset with
  | none => none
  | some Token.indent => some (some (offset + 1, true))
  | some _ => some none

/-- `Parser::dedent`. -/
def dedent (tokens : List Token) (offset : Nat) :
    Option (Option (Nat × Bool)) :=
  match tokens.get? offset with
  | none => none
  | some Token.dedent => some (some (offset + 1, true))
  | some _ => some none

/-- The hard-coded node that `Parser::state_parser` returns on every success
path (its own unit test asserts exactly this value). -/
def stubNode : StateNode :=
  StateNode.mk ("1") StateType.atomicState (some ("abc")) false [] []

/-- `Parser::state_parser` (renamed: the source method name ends in a suffix
this development avoids).  It consumes an Identifier, then at most one each
of ParallelMarker, FinalMarker, InitialMarker and Indent, then (only when an
Indent was present) any number of Dedents, and returns the hard-coded
`stubNode` — it never builds a tree from what it parsed and performs no
marker-combination check.  The outer `none` is a propagated indexing panic;
`some none` is the `?`-propagated rule failure. -/
def stateParser (tokens : List Token) (offset : Nat) :
    Option (Option StateNode) :=
  match identifier tokens offset with
  | none => none
  | some none => some none
  | some (some (o1, _id)) =>
    match zero_or_one o1 (parallel_state tokens) with
    | none => none
    | some (o2, _isParallel) =>
      match zero_or_one o2 (final_state tokens) with
      | none => none
      | some (o3, _isFinal) =>
        match zero_or_one o3 (initial_state tokens) with
        | none => none
        | some (o4, _isInitial) =>
          match zero_or_one o4 (indent tokens) with
          | none => none
          | some (o5, indentOpt) =>
            match indentOpt with
            | some _ =>
              match zero_or_more (tokens.length + 1) o5 (dedent tokens) with
              | none => none
              | some _ => some (some stubNode)
            | none => some (some stubNode)

/-- The token list `Parser::parse` hands to the grammar rules: the tokenizer
output with all Comment tokens filtered out. -/
def parserTokens (input : String) : Option (List Token) :=
  (tokenize input).map (fun ts => ts.filter (fun t => !(Token.isComment t)))

/-- `Parser::parse` from src/parser.rs.  The outer `none` models a panic
anywhere in the pipeline; otherwise the source's `Result` is returned. -/
def parse (input : String) : Option (Except String StateNode) :=
  match parserTokens input with
  | none => none
  | some ts =>
    match stateParser ts 0 with
    | none => none
    | some (some ast) => some (Except.ok ast)
    | some none => some (Except.error ("MyParser: Error parsing string"))

end Parser

/-!
Reference resolver.  The repository's source tree contains no Resolver (only
the lexer and the parsing entry point), so this component is modelled from
the specification, section 4.3, as a pure tree-to-tree transform.
-/

/-- Modelled from the spec: a transition's target reference is "raw text
until resolved, then a resolved path" — the missing Resolver component's
target representation. -/
inductive TargetRef where
  | raw (text : String)
  | resolved (path : List String)
deriving DecidableEq, Repr

/-- Modelled from the spec: `ResolveError::UnresolvedReference(name)` of the
missing Resolver component. -/
inductive ResolveError where
  | unresolvedReference (name : String)
deriving DecidableEq, Repr

/-- Modelled from the spec: a transition of the raw tree the parser hands to
the missing Resolver — target reference plus optional guard and action
text. -/
structure RTransition where
  target : TargetRef
  cond : Option String
  action : Option String
deriving DecidableEq, Repr

mutual
/-- Modelled from the spec: a state of the raw tree handed to the missing
Resolver — identifier, outgoing transitions, ordered children. -/
inductive RState where
  | mk (id : String) (transitions : List RTransition) (children : RStates)
/-- Ordered sibling list of `RState` values. -/
inductive RStates where
  | nil
  | cons (head : RState) (tail : RStates)
end

/-- Identifier of a raw-tree state. -/
def RState.ident : RState → String
  | .mk i _ _ => i

/-- Whether a sibling list contains a state with the given identifier. -/
def hasSibling : RStates → String → Bool
  | RStates.nil, _ => false
  | RStates.cons s rest, name =>
    if RState.ident s = name then true else hasSibling rest name

/-- A lexical scope for the missing Resolver: the root path of the parent of
a sibling set, paired with that sibling set. -/
def RScope : Type := List String × RStates

/-- Modelled from the spec: lexical-scope search — starting at the owning
state's sibling set and walking outward, find the first scope containing the
name; the result is that sibling's root path.  `none` is an unresolved
reference. -/
def scopeSearch : List RScope → String → Option (List String)
  | [], _ => none
  | (pp, sibs) :: rest, name =>
    if hasSibling sibs name then some (pp ++ [name])
    else scopeSearch rest name

/-- Child with the given identifier, if any. -/
def findChild : RStates → String → Option RState
  | RStates.nil, _ => none
  | RStates.cons s rest, name =>
    if RState.ident s = name then some s else findChild rest name

/-- Modelled from the spec: the chain of child lookups for a root-qualified
path; any missing segment is an UnresolvedReference failure naming the
failing segment. -/
def chainLookup : RState → List String → Except ResolveError Unit
  | _, [] => Except.ok ()
  | RState.mk _ _ cs, seg :: rest =>
    match findChild cs seg with
    | none => Except.error (ResolveError.unresolvedReference seg)
    | some c => chainLookup c rest

/-- Whether the target text starts with the root-qualification marker. -/
def startsWithHash (text : String) : Bool :=
  match text.data with
  | c :: _ => c = '#'
  | [] => false

/-- Splitting a character list on every dot, keeping empty segments. -/
def splitOnDot : List Char → List (List Char)
  | [] => [[]]
  | c :: rest =>
    if c = '.' then [] :: splitOnDot rest
    else
      match splitOnDot rest with
      | [] => [[c]]
      | l :: ls => (c :: l) :: ls

/-- Modelled from the spec: strip the `#` marker and split the path text on
`.` into its segments. -/
def pathSegments (text : String) : List String :=
  (splitOnDot (text.data.drop 1)).map String.mk

/-- Modelled from the spec: resolution of one target reference.  A target
whose text starts with `#` is split on `.`; its first segment must equal the
root's identifier and the remaining segments are chained child lookups from
the root.  Any other raw text is looked up by lexical-scope search.  An
already-resolved target is returned unchanged (resolving an already-resolved
tree is a no-op). -/
def resolveTarget (root : RState) (scopes : List RScope) :
    TargetRef → Except ResolveError TargetRef
  | TargetRef.resolved p => Except.ok (TargetRef.resolved p)
  | TargetRef.raw text =>
    if startsWithHash text then
      match pathSegments text with
      | [] => Except.error (ResolveError.unresolvedReference text)
      | first :: rest =>
        if first = RState.ident root then
          match chainLookup root rest with
          | Except.error e => Except.error e
          | Except.ok _ => Except.ok (TargetRef.resolved (first :: rest))
        else Except.error (ResolveError.unresolvedReference first)
    else
      match scopeSearch scopes text with
      | some path => Except.ok (TargetRef.resolved path)
      | none => Except.error (ResolveError.unresolvedReference text)

/-- Resolution of one transition: resolve its target, keep guard and action
text. -/
def resolveTransition (root : RState) (scopes : List RScope)
    (tr : RTransition) : Except ResolveError RTransition :=
  match resolveTarget root scopes tr.target with
  | Except.error e => Except.error e
  | Except.ok t => Except.ok { tr with target := t }

/-- Resolution of a transition list, failing on the first failure. -/
def resolveTransitions (root : RState) (scopes : List RScope) :
    List RTransition → Except ResolveError (List RTransition)
  | [] => Except.ok []
  | tr :: rest =>
    match resolveTransition root scopes tr with
    | Except.error e => Except.error e
    | Except.ok tr' =>
      match resolveTransitions root scopes rest with
      | Except.error e => Except.error e
      | Except.ok rest' => Except.ok (tr' :: rest')

mutual
/-- Modelled from the spec: resolve every transition of a state and recurse
into its children.  `scopes` is the lexical scope chain for this state's own
transitions (its sibling scope at the head); `pp` is the root path of this
state's parent. -/
def resolveState (root : RState) (scopes : List RScope) (pp : List String) :
    RState → Except ResolveError RState
  | RState.mk id trs children =>
    match resolveTransitions root scopes trs with
    | Except.error e => Except.error e
    | Except.ok trs' =>
      match resolveStates root ((pp ++ [id], children) :: scopes)
          (pp ++ [id]) children with
      | Except.error e => Except.error e
      | Except.ok cs' => Except.ok (RState.mk id trs' cs')
/-- Resolve each state of a sibling list, failing on the first failure. -/
def resolveStates (root : RState) (scopes : List RScope) (pp : List String) :
    RStates → Except ResolveError RStates
  | RStates.nil => Except.ok RStates.nil
  | RStates.cons s rest =>
    match resolveState root scopes pp s with
    | Except.error e => Except.error e
    | Except.ok s' =>
      match resolveStates root scopes pp rest with
      | Except.error e => Except.error e
      | Except.ok rest' => Except.ok (RStates.cons s' rest')
end

/-- Modelled from the spec: the Resolver pass over a whole raw tree.  The
root's sibling set is the singleton containing the root itself, with the
empty parent path. -/
def resolveTree (root : RState) : Except ResolveError RState :=
  resolveState root [([], RStates.cons root RStates.nil)] [] root

/-- Whether a transition's target is already resolved. -/
def RTransition.isResolved (tr : RTransition) : Bool :=
  match tr.target with
  | TargetRef.resolved _ => true
  | TargetRef.raw _ => false

/-- Whether every transition of a list is resolved. -/
def allResolvedTrs : List RTransition → Bool
  | [] => true
  | tr :: rest => RTransition.isResolved tr && allResolvedTrs rest

mutual
/-- Whether every transition in a state's subtree is resolved. -/
def allResolvedState : RState → Bool
  | RState.mk _ trs cs => allResolvedTrs trs && allResolvedStates cs
/-- Whether every transition below a sibling list is resolved. -/
def allResolvedStates : RStates → Bool
  | RStates.nil => true
  | RStates.cons s rest => allResolvedState s && allResolvedStates rest
end

/-- Number of occurrences of a token in a token list. -/
def countTok (t : Token) : List Token → Nat
  | [] => 0
  | x :: rest => (if x = t then 1 else 0) + countTok t rest

/-!
Theorems.
-/

/-- C1: For the input "abc", parse returns Ok with a tree consisting of a
single root StateNode whose identifier is "abc", whose kind is Atomic, with
no children and no transitions.  What the code actually does: after
consuming the Identifier token, `Parser::state_parser` indexes `tokens[1]`
of the one-token stream out of bounds, so `parse("abc")` panics (modelled as
`none`); its success path would in any case return the hard-coded node with
identifier "1". -/
theorem parse_abc_panics : Parser.parse ("abc") = none := rfl

/-- C2: The claim says the pipeline is total and every token/character
access is in bounds.  The code violates it: the leading-space loop of
`indent_dedent_tokens` indexes past the end of an empty or all-space line
(inputs "" and " "), the scan loop of `condition_token` runs past the end of
the line when no identifier follows the semicolon (input "a;"), and
`Parser::state_parser` indexes past the end of the token vector (input
"abc").  Each panic is modelled as `none`. -/
theorem pipeline_panics :
    tokenize ("") = none ∧ tokenize (" ") = none ∧ tokenize ("a;") = none ∧
    Parser.parse ("abc") = none :=
  ⟨rfl, rfl, rfl, rfl⟩

/-- C3: The claim says a dedent width matching no remaining indent-stack
entry fails with LexError::BadIndent at that line.  The code has no such
check (it is only a commented-out TODO, and `tokenize` has no error result
at all): on the claim's own example input the lexer silently accepts the
mismatched dedent to width 4 (stack top 2) and returns a full token
stream. -/
theorem tokenize_bad_dedent_no_error :
    tokenize ("abc\n  def -> lmn\n      pqr\n    stm") =
      some [Token.identifier ("abc"), Token.indent, Token.identifier ("def"),
        Token.transitionArrow, Token.identifier ("lmn"), Token.indent,
        Token.identifier ("pqr"), Token.dedent, Token.identifier ("stm"),
        Token.dedent] := by decide

/-- C5: The claim says a state carrying both the ParallelMarker and the
FinalMarker is rejected with a parse error at parse time.  The code performs
no such check: on "abc&$*x" (identifier, both markers, initial marker, then
an identifier so no index runs out of bounds) `parse` succeeds, returning its
hard-coded node. -/
theorem parse_accepts_parallel_and_final :
    Parser.parse ("abc&$*x") =
      some (Except.ok (StateNode.mk ("1") StateType.atomicState
        (some ("abc")) false [] [])) := rfl

/-- C6 counterexample: the claim says the lexer emits an Unknown token
carrying the offending character's text.  On input "@" the code emits
`Unknown("unknown")` — the fixed placeholder string — not `Unknown("@")`. -/
theorem unknown_carries_placeholder_not_char :
    tokenize ("@") = some [Token.unknown ("unknown")] ∧
    tokenize ("@") ≠ some [Token.unknown ("@")] :=
  ⟨by decide, by decide⟩

/-- C6 as amended: for every character that matches no token rule, the lexer
emits an Unknown token carrying the constant placeholder text "unknown" (not
the character's text) and continues scanning at the next character rather
than failing. -/
theorem unknown_token_placeholder (line : List Char) (fuel offset : Nat)
    (c : Char) (hget : line.get? offset = some c)
    (h1 : c ≠ '%') (h2 : c ≠ '&') (h3 : c ≠ '$') (h4 : c ≠ '*')
    (h5 : c ≠ ';') (h6 : c ≠ '-') (h7 : c ≠ '>')
    (h8 : is_identifier_start c = false) (h9 : is_ws c = false) :
    scanLine line (fuel + 1) offset =
      (scanLine line fuel (offset + 1)).map
        (fun ts => Token.unknown ("unknown") :: ts) := by
  simp only [scanLine, hget]
  simp [h1, h2, h3, h4, h5, h6, h7, h8, h9]

/-- Witness for the amended C6 at the concrete character '@'. -/
theorem unknown_token_placeholder_witness :
    scanLine ['@'] 2 0 =
      (scanLine ['@'] 1 1).map (fun ts => Token.unknown ("unknown") :: ts) :=
  unknown_token_placeholder ['@'] 1 0 '@' rfl (by decide) (by decide)
    (by decide) (by decide) (by decide) (by decide) (by decide) (by decide)
    (by decide)

/-- C7: '#' and '.' are identifier characters and identifier runs are
consumed maximally, so a root-qualified dot-separated path such as
"#abc.lastState" is lexed as exactly one Identifier token carrying the whole
path. -/
theorem qualified_path_single_identifier :
    is_identifier_start '#' = true ∧ is_identifier_start '.' = true ∧
    tokenize ("#abc.lastState") = some [Token.identifier ("#abc.lastState")] ∧
    tokenize ("uvw -> #abc.lastState") =
      some [Token.identifier ("uvw"), Token.transitionArrow,
        Token.identifier ("#abc.lastState")] :=
  ⟨rfl, rfl, by decide, by decide⟩

/-- C9: The claim says every token carries the line and column of its source
span.  The embedded Token type (faithful to the source enum, whose line
counter is commented out) has no position fields: the occurrences of "ab" on
line 1 and on line 2 are lexed to identical token values, so no position is
attached to any token. -/
theorem tokens_carry_no_position :
    tokenize ("ab\nab") =
      some [Token.identifier ("ab"), Token.identifier ("ab")] ∧
    [Token.identifier ("ab"), Token.identifier ("ab")].get? 0 =
      [Token.identifier ("ab"), Token.identifier ("ab")].get? 1 :=
  ⟨by decide, rfl⟩

/-- C10: The token sequence `Parser::parse` hands to the grammar rules is
the tokenizer output with every Comment token filtered out, so it contains
no Comment tokens. -/
theorem parserTokens_no_comments :
    ∀ (input : String) (ts : List Token), Parser.parserTokens input = some ts →
    ∀ t ∈ ts, Token.isComment t = false := by
  intro input ts h t ht
  unfold Parser.parserTokens at h
  cases htok : tokenize input with
  | none => rw [htok] at h; simp at h
  | some ts0 =>
    rw [htok] at h
    simp only [Option.map_some'] at h
    cases h
    have hp := List.of_mem_filter ht
    simpa using hp

/-- Witness for C10 on the concrete input "a %x". -/
theorem parserTokens_no_comments_witness :
    Token.isComment (Token.identifier ("a")) = false :=
  parserTokens_no_comments ("a %x") [Token.identifier ("a")] (by decide)
    (Token.identifier ("a")) (by decide)

theorem countTok_append (t : Token) (a b : List Token) :
    countTok t (a ++ b) = countTok t a + countTok t b := by
  induction a with
  | nil => simp [countTok]
  | cons x rest ih => simp [countTok, ih]; omega

theorem countTok_replicate_self (t : Token) (n : Nat) :
    countTok t (List.replicate n t) = n := by
  induction n with
  | zero => simp [countTok]
  | succ m ih => simp [List.replicate, countTok, ih, Nat.add_comm]

theorem countTok_replicate_other (t s : Token) (n : Nat) (h : s ≠ t) :
    countTok t (List.replicate n s) = 0 := by
  induction n with
  | zero => simp [countTok]
  | succ m ih => simp [List.replicate, countTok, h, ih]

theorem condition_token_shape (offset : Nat) (line : List Char) (o2 : Nat)
    (tk : Token) (h : condition_token offset line = some (o2, tk)) :
    ∃ s, tk = Token.condition s := by
  unfold condition_token at h
  cases hf : findIdent (line.drop offset) with
  | none => rw [hf] at h; exact absurd h (by simp)
  | some k =>
    rw [hf] at h
    simp only [Option.some.injEq, Prod.mk.injEq] at h
    exact ⟨_, h.2.symm⟩

theorem action_token_shape (offset : Nat) (line : List Char) (o2 : Nat)
    (tk : Token) (h : action_token offset line = some (o2, tk)) :
    ∃ s, tk = Token.action s := by
  unfold action_token at h
  cases hf : findIdent (line.drop offset) with
  | none => rw [hf] at h; exact absurd h (by simp)
  | some k =>
    rw [hf] at h
    simp only [Option.some.injEq, Prod.mk.injEq] at h
    exact ⟨_, h.2.symm⟩

theorem scanLine_no_indent_dedent :
    ∀ (fuel : Nat) (line : List Char) (offset : Nat) (ts : List Token),
      scanLine line fuel offset = some ts →
      countTok Token.indent ts = 0 ∧ countTok Token.dedent ts = 0 := by
  intro fuel
  induction fuel with
  | zero => intro line offset ts h; exact absurd h (by simp [scanLine])
  | succ n ih =>
    intro line offset ts h
    simp only [scanLine] at h
    cases hg : line.get? offset with
    | none =>
      simp only [hg] at h
      cases h
      simp [countTok]
    | some c =>
      simp only [hg] at h
      split_ifs at h
      · cases h; simp [countTok, comment_token]
      · rcases Option.map_eq_some'.mp h with ⟨ts0, hts0, hf⟩
        subst hf
        obtain ⟨hI, hD⟩ := ih _ _ _ hts0
        simp [countTok, hI, hD]
      · rcases Option.map_eq_some'.mp h with ⟨ts0, hts0, hf⟩
        subst hf
        obtain ⟨hI, hD⟩ := ih _ _ _ hts0
        simp [countTok, hI, hD]
      · rcases Option.map_eq_some'.mp h with ⟨ts0, hts0, hf⟩
        subst hf
        obtain ⟨hI, hD⟩ := ih _ _ _ hts0
        simp [countTok, hI, hD]
      · cases hc : condition_token offset line with
        | none => rw [hc] at h; exact absurd h (by simp)
        | some p =>
          obtain ⟨off2, tk⟩ := p
          rw [hc] at h
          rcases Option.map_eq_some'.mp h with ⟨ts0, hts0, hf⟩
          subst hf
          obtain ⟨s, rfl⟩ := condition_token_shape _ _ _ _ hc
          obtain ⟨hI, hD⟩ := ih _ _ _ hts0
          simp [countTok, hI, hD]
      · rcases Option.map_eq_some'.mp h with ⟨ts0, hts0, hf⟩
        subst hf
        obtain ⟨hI, hD⟩ := ih _ _ _ hts0
        simp [countTok, hI, hD]
      · rcases Option.map_eq_some'.mp h with ⟨ts0, hts0, hf⟩
        subst hf
        obtain ⟨hI, hD⟩ := ih _ _ _ hts0
        simp [countTok, hI, hD]
      · cases hc : action_token offset line with
        | none => rw [hc] at h; exact absurd h (by simp)
        | some p =>
          obtain ⟨off2, tk⟩ := p
          rw [hc] at h
          rcases Option.map_eq_some'.mp h with ⟨ts0, hts0, hf⟩
          subst hf
          obtain ⟨s, rfl⟩ := action_token_shape _ _ _ _ hc
          obtain ⟨hI, hD⟩ := ih _ _ _ hts0
          simp [countTok, hI, hD]
      · rcases Option.map_eq_some'.mp h with ⟨ts0, hts0, hf⟩
        subst hf
        obtain ⟨hI, hD⟩ := ih _ _ _ hts0
        simp [countTok, hI, hD]
      · exact ih _ _ _ h
      · rcases Option.map_eq_some'.mp h with ⟨ts0, hts0, hf⟩
        subst hf
        obtain ⟨hI, hD⟩ := ih _ _ _ hts0
        simp [countTok, hI, hD]

theorem popDedents_balance :
    ∀ (stack : List Nat) (lvl : Nat) (s : List Nat) (ts : List Token),
      popDedents stack lvl = (s, ts) →
      s.length + countTok Token.dedent ts = stack.length ∧
      countTok Token.indent ts = 0 := by
  intro stack
  induction stack with
  | nil =>
    intro lvl s ts h
    simp only [popDedents] at h
    cases h
    simp [countTok]
  | cons p rest ih =>
    intro lvl s ts h
    simp only [popDedents] at h
    split_ifs at h with hp
    · rcases hr : popDedents rest lvl with ⟨s0, ts0⟩
      rw [hr] at h
      cases h
      obtain ⟨h1, h2⟩ := ih lvl s0 ts0 hr
      refine ⟨?_, ?_⟩
      · simp [countTok]; omega
      · simp [countTok, h2]
    · cases h
      simp [countTok]

theorem indent_dedent_tokens_balance (stack : List Nat) (line : List Char)
    (off : Nat) (ts : List Token) (stack' : List Nat)
    (h : indent_dedent_tokens stack line = some (off, ts, stack')) :
    countTok Token.indent ts + stack.length =
      countTok Token.dedent ts + stack'.length := by
  unfold indent_dedent_tokens at h
  cases hcs : countSpaces line with
  | none => rw [hcs] at h; exact absurd h (by simp)
  | some lvl =>
    rw [hcs] at h
    simp only [] at h
    split_ifs at h with hl
    · cases stack with
      | nil =>
        simp only [Option.some.injEq, Prod.mk.injEq] at h
        obtain ⟨-, h2, h3⟩ := h
        subst h2; subst h3
        simp [countTok]
      | cons prev rest =>
        simp only [] at h
        split_ifs at h with h1 h2
        · simp only [Option.some.injEq, Prod.mk.injEq] at h
          obtain ⟨-, h2, h3⟩ := h
          subst h2; subst h3
          simp [countTok]
          omega
        · rcases hpd : popDedents (prev :: rest) lvl with ⟨s0, ts0⟩
          rw [hpd] at h
          simp only [Option.some.injEq, Prod.mk.injEq] at h
          obtain ⟨-, h3, h4⟩ := h
          subst h3; subst h4
          obtain ⟨hb, hz⟩ := popDedents_balance (prev :: rest) lvl s0 ts0 hpd
          simp only [hz, List.length_cons] at *
          omega
        · simp only [Option.some.injEq, Prod.mk.injEq] at h
          obtain ⟨-, h3, h4⟩ := h
          subst h3; subst h4
          simp [countTok]
    · simp only [Option.some.injEq, Prod.mk.injEq] at h
      obtain ⟨-, h2, h3⟩ := h
      subst h2; subst h3
      simp [countTok]

theorem tokenizeLines_balance :
    ∀ (lines : List (List Char)) (stack : List Nat) (ts : List Token),
      tokenizeLines stack lines = some ts →
      countTok Token.indent ts + stack.length = countTok Token.dedent ts := by
  intro lines
  induction lines with
  | nil =>
    intro stack ts h
    simp only [tokenizeLines] at h
    cases h
    simp [countTok_replicate_self,
      countTok_replicate_other Token.indent Token.dedent _ (by simp)]
  | cons line rest ih =>
    intro stack ts h
    simp only [tokenizeLines] at h
    cases hi : indent_dedent_tokens stack line with
    | none => rw [hi] at h; exact absurd h (by simp)
    | some triple =>
      obtain ⟨off, itoks, stack'⟩ := triple
      rw [hi] at h
      simp only [] at h
      cases hs : scanLine line (line.length + 1) off with
      | none => rw [hs] at h; exact absurd h (by simp)
      | some ltoks =>
        rw [hs] at h
        simp only [] at h
        rcases Option.map_eq_some'.mp h with ⟨more, hmore, hts⟩
        subst hts
        have hb := indent_dedent_tokens_balance stack line off itoks stack' hi
        have hsc := scanLine_no_indent_dedent _ _ _ _ hs
        have hm := ih stack' more hmore
        simp only [countTok_append, hsc.1, hsc.2] at *
        omega

/-- C4: For every input string, the token sequence returned by tokenize has
as many Indent tokens as Dedent tokens: each Indent corresponds to a stack
push and each Dedent to a stack pop, and the final stack is fully popped at
the end of the document. -/
theorem tokenize_indent_dedent_balanced (input : String) (ts : List Token)
    (h : tokenize input = some ts) :
    countTok Token.indent ts = countTok Token.dedent ts := by
  have hb := tokenizeLines_balance (splitLines input.toList) [] ts h
  simpa using hb

/-- Witness for C4 on the concrete input "abc\n  def". -/
theorem tokenize_indent_dedent_balanced_witness :
    countTok Token.indent [Token.identifier ("abc"), Token.indent,
      Token.identifier ("def"), Token.dedent] =
    countTok Token.dedent [Token.identifier ("abc"), Token.indent,
      Token.identifier ("def"), Token.dedent] :=
  tokenize_indent_dedent_balanced ("abc\n  def") _ (by decide)

theorem resolveTarget_ok_resolved (root : RState) (scopes : List RScope)
    (t t' : TargetRef) (h : resolveTarget root scopes t = Except.ok t') :
    ∃ p, t' = TargetRef.resolved p := by
  cases t with
  | resolved p =>
    unfold resolveTarget at h
    simp only [] at h
    simp only [Except.ok.injEq] at h
    exact ⟨p, h.symm⟩
  | raw text =>
    unfold resolveTarget at h
    simp only [] at h
    split_ifs at h with hh
    · cases hp : pathSegments text with
      | nil => rw [hp] at h; exact absurd h (by simp)
      | cons first rest =>
        rw [hp] at h
        simp only [] at h
        split_ifs at h with hr
        · cases hc : chainLookup root rest with
          | error e => rw [hc] at h; exact absurd h (by simp)
          | ok u =>
            rw [hc] at h
            simp only [Except.ok.injEq] at h
            exact ⟨_, h.symm⟩
    · cases hs : scopeSearch scopes text with
      | none => rw [hs] at h; exact absurd h (by simp)
      | some path =>
        rw [hs] at h
        simp only [Except.ok.injEq] at h
        exact ⟨_, h.symm⟩

theorem resolveTransition_ok_isResolved (root : RState) (scopes : List RScope)
    (tr tr' : RTransition)
    (h : resolveTransition root scopes tr = Except.ok tr') :
    RTransition.isResolved tr' = true := by
  unfold resolveTransition at h
  cases ht : resolveTarget root scopes tr.target with
  | error e => rw [ht] at h; exact absurd h (by simp)
  | ok t' =>
    rw [ht] at h
    simp only [Except.ok.injEq] at h
    subst h
    obtain ⟨p, rfl⟩ := resolveTarget_ok_resolved _ _ _ _ ht
    simp [RTransition.isResolved]

theorem resolveTransition_id (root : RState) (scopes : List RScope)
    (tr : RTransition) (h : RTransition.isResolved tr = true) :
    resolveTransition root scopes tr = Except.ok tr := by
  obtain ⟨target, cond, action⟩ := tr
  cases target with
  | raw text => simp [RTransition.isResolved] at h
  | resolved p => rfl

theorem resolveTransitions_ok_allResolved :
    ∀ (root : RState) (scopes : List RScope) (trs trs' : List RTransition),
      resolveTransitions root scopes trs = Except.ok trs' →
      allResolvedTrs trs' = true := by
  intro root scopes trs
  induction trs with
  | nil =>
    intro trs' h
    unfold resolveTransitions at h
    simp only [Except.ok.injEq] at h
    subst h
    rfl
  | cons tr rest ih =>
    intro trs' h
    unfold resolveTransitions at h
    cases h1 : resolveTransition root scopes tr with
    | error e => rw [h1] at h; exact absurd h (by simp)
    | ok tr0 =>
      rw [h1] at h
      simp only [] at h
      cases h2 : resolveTransitions root scopes rest with
      | error e => rw [h2] at h; exact absurd h (by simp)
      | ok rest0 =>
        rw [h2] at h
        simp only [Except.ok.injEq] at h
        subst h
        have ha := resolveTransition_ok_isResolved _ _ _ _ h1
        have hb := ih _ h2
        simp [allResolvedTrs, ha, hb]

theorem resolveTransitions_id :
    ∀ (root : RState) (scopes : List RScope) (trs : List RTransition),
      allResolvedTrs trs = true →
      resolveTransitions root scopes trs = Except.ok trs := by
  intro root scopes trs
  induction trs with
  | nil => intro h; rfl
  | cons tr rest ih =>
    intro h
    simp only [allResolvedTrs, Bool.and_eq_true] at h
    obtain ⟨h1, h2⟩ := h
    unfold resolveTransitions
    rw [resolveTransition_id root scopes tr h1]
    simp only []
    rw [ih h2]

mutual
theorem resolveState_ok_allResolved :
    ∀ (root : RState) (scopes : List RScope) (pp : List String)
      (s s' : RState), resolveState root scopes pp s = Except.ok s' →
      allResolvedState s' = true
  | root, scopes, pp, RState.mk id trs cs, s', h => by
    unfold resolveState at h
    cases htr : resolveTransitions root scopes trs with
    | error e => rw [htr] at h; exact absurd h (by simp)
    | ok trs' =>
      rw [htr] at h
      simp only [] at h
      cases hcs : resolveStates root ((pp ++ [id], cs) :: scopes)
          (pp ++ [id]) cs with
      | error e => rw [hcs] at h; exact absurd h (by simp)
      | ok cs' =>
        rw [hcs] at h
        simp only [Except.ok.injEq] at h
        subst h
        have h1 := resolveTransitions_ok_allResolved root scopes trs trs' htr
        have h2 := resolveStates_ok_allResolved root
          ((pp ++ [id], cs) :: scopes) (pp ++ [id]) cs cs' hcs
        simp [allResolvedState, h1, h2]
theorem resolveStates_ok_allResolved :
    ∀ (root : RState) (scopes : List RScope) (pp : List String)
      (ss ss' : RStates), resolveStates root scopes pp ss = Except.ok ss' →
      allResolvedStates ss' = true
  | root, scopes, pp, RStates.nil, ss', h => by
    unfold resolveStates at h
    simp only [Except.ok.injEq] at h
    subst h
    rfl
  | root, scopes, pp, RStates.cons s rest, ss', h => by
    unfold resolveStates at h
    cases h1 : resolveState root scopes pp s with
    | error e => rw [h1] at h; exact absurd h (by simp)
    | ok s0 =>
      rw [h1] at h
      simp only [] at h
      cases h2 : resolveStates root scopes pp rest with
      | error e => rw [h2] at h; exact absurd h (by simp)
      | ok rest0 =>
        rw [h2] at h
        simp only [Except.ok.injEq] at h
        subst h
        have ha := resolveState_ok_allResolved root scopes pp s s0 h1
        have hb := resolveStates_ok_allResolved root scopes pp rest rest0 h2
        simp [allResolvedStates, ha, hb]
end

mutual
theorem resolveState_id :
    ∀ (root : RState) (scopes : List RScope) (pp : List String) (s : RState),
      allResolvedState s = true → resolveState root scopes pp s = Except.ok s
  | root, scopes, pp, RState.mk id trs cs, h => by
    simp only [allResolvedState, Bool.and_eq_true] at h
    obtain ⟨h1, h2⟩ := h
    unfold resolveState
    rw [resolveTransitions_id root scopes trs h1]
    simp only []
    rw [resolveStates_id root ((pp ++ [id], cs) :: scopes) (pp ++ [id]) cs h2]
theorem resolveStates_id :
    ∀ (root : RState) (scopes : List RScope) (pp : List String) (ss : RStates),
      allResolvedStates ss = true → resolveStates root scopes pp ss = Except.ok ss
  | root, scopes, pp, RStates.nil, _ => rfl
  | root, scopes, pp, RStates.cons s rest, h => by
    simp only [allResolvedStates, Bool.and_eq_true] at h
    obtain ⟨h1, h2⟩ := h
    unfold resolveStates
    rw [resolveState_id root scopes pp s h1]
    simp only []
    rw [resolveStates_id root scopes pp rest h2]
end

/-- C8: Reference resolution is idempotent and pure: running the Resolver
twice on a raw tree yields exactly the same resolved tree (or the same
failure) as running it once, and resolving a tree the Resolver has already
resolved is a no-op. -/
theorem resolver_idempotent :
    ∀ t : RState, (resolveTree t).bind resolveTree = resolveTree t ∧
      ∀ t', resolveTree t = Except.ok t' → resolveTree t' = Except.ok t' := by
  intro t
  have key : ∀ t', resolveTree t = Except.ok t' → resolveTree t' = Except.ok t' := by
    intro t' h
    unfold resolveTree at h
    have ha := resolveState_ok_allResolved t
      [([], RStates.cons t RStates.nil)] [] t t' h
    unfold resolveTree
    exact resolveState_id t' [([], RStates.cons t' RStates.nil)] [] t' ha
  refine ⟨?_, key⟩
  cases h : resolveTree t with
  | error e => rfl
  | ok t' =>
    have := key t' h
    simp [Except.bind, this]

/-- Witness for C8: resolving a one-state tree whose single transition
targets the root by name yields a resolved tree, and resolving that resolved
tree again is a no-op. -/
theorem resolver_idempotent_witness :
    resolveTree (RState.mk ("abc")
      [⟨TargetRef.resolved (["abc"]), none, none⟩] RStates.nil) =
    Except.ok (RState.mk ("abc")
      [⟨TargetRef.resolved (["abc"]), none, none⟩] RStates.nil) :=
  (resolver_idempotent (RState.mk ("abc")
      [⟨TargetRef.raw ("abc"), none, none⟩] RStates.nil)).2
    (RState.mk ("abc") [⟨TargetRef.resolved (["abc"]), none, none⟩] RStates.nil)
    (by rfl)
